import Mathlib

/-!
Shallow embedding of the stack-trace subsystem of `go-errors` (`stack.go`):
frame resolution, name normalization, formatting, stack capture and the
ancestor matcher, together with theorems settling the specification claims.

The host execution environment's symbol table (`runtime.FuncForPC` /
`Func.FileLine` / `Func.Name`) is modelled, as the spec's design notes
direct, as an injected immutable lookup from a program counter to an
optional function-info record.
-/

namespace GoErrors

/-- Result of a successful `runtime.FuncForPC` lookup: the enclosing
function's reported name (`Func.Name()`) and its file/line query
(`Func.FileLine(pc)`), a function of the program counter. -/
structure FuncInfo where
  name : String
  fileLine : Nat → String × Nat

/-- The host symbol table: maps a program counter to its enclosing
function, or `none` when `runtime.FuncForPC` returns `nil`. -/
def SymTab : Type := Nat → Option FuncInfo

/-- Go: `type Frame uintptr`. A `Frame` wraps one captured address; read
as an integer its value is the program counter plus one. -/
structure Frame where
  val : Nat
deriving DecidableEq

/-- Go: `func (f Frame) pc() uintptr { return uintptr(f) - 1 }`, with
`uintptr` subtraction wrapping at width 64. -/
def Frame.pc (f : Frame) : Nat := (f.val + (2 ^ 64 - 1)) % 2 ^ 64

/-- Go: `Frame.file`. Resolves the frame's pc; `"unknown"` when the
symbol table has no enclosing function. -/
def Frame.file (tab : SymTab) (f : Frame) : String :=
  match tab f.pc with
  | none => "unknown"
  | some fn => (fn.fileLine f.pc).1

/-- Go: `Frame.line`. Resolves the frame's pc; `0` when the symbol table
has no enclosing function. -/
def Frame.line (tab : SymTab) (f : Frame) : Nat :=
  match tab f.pc with
  | none => 0
  | some fn => (fn.fileLine f.pc).2

/-- Go: `Frame.name`. Resolves the frame's pc; `"unknown"` when the
symbol table has no enclosing function. -/
def Frame.name (tab : SymTab) (f : Frame) : String :=
  match tab f.pc with
  | none => "unknown"
  | some fn => fn.name

/-- Go: `type stack []uintptr` — raw program counters, innermost first. -/
abbrev Stack : Type := List Nat

/-- Go: `type StackTrace []Frame` — innermost (newest) first. -/
abbrev StackTrace : Type := List Frame

/-- Go: `stack.StackTrace()` — wrap each captured pc in a `Frame`. -/
def Stack.stackTrace (s : Stack) : StackTrace := s.map Frame.mk

/-- Index of the first occurrence of `c` in `l`, as Go
`strings.Index(l, c)`; `none` plays the role of Go's `-1`. -/
def strIndex : List Char → Char → Option Nat
  | [], _ => none
  | x :: xs, c => if x = c then some 0 else (strIndex xs c).map (· + 1)

/-- Index of the last occurrence of `c` in `l`, as Go
`strings.LastIndex(l, c)`; `none` plays the role of Go's `-1`. -/
def strLastIndex (l : List Char) (c : Char) : Option Nat :=
  (strIndex l.reverse c).map (fun i => l.length - 1 - i)

/-- First step of `funcname`:
`name = name[strings.LastIndex(name, "/")+1:]` — with Go's `-1` the
slice `name[0:]` is the whole string. -/
def stripPath (l : List Char) : List Char :=
  match strLastIndex l '/' with
  | some i => l.drop (i + 1)
  | none => l

/-- Go: `funcname` — removes the path prefix component of a function's
name reported by `Func.Name()`: slice past the last `/`, then past the
first remaining `.` (each slice a no-op when the character is absent). -/
def funcname (name : String) : String :=
  let l := stripPath name.toList
  match strIndex l '.' with
  | some i => String.mk (l.drop (i + 1))
  | none => String.mk l

/-- One pass of the comparison loop of `ancestorOfCause`
(`for idx := 0; idx < len(*ourStack); idx++`), with `k` iterations
remaining. The loop body does not use `idx`: every iteration compares
the LAST element of `ourStack` with the LAST element of `causeStack`,
cast to its raw `uintptr` value. -/
def ancestorLoop (ourStack : Stack) (causeStack : StackTrace) : Nat → Bool
  | 0 => true
  | k + 1 =>
    if ourStack.getD (ourStack.length - 1) 0
        ≠ (causeStack.getD (causeStack.length - 1) ⟨0⟩).val then
      false
    else
      ancestorLoop ourStack causeStack k

/-- Go: `ancestorOfCause(ourStack *stack, causeStack StackTrace) bool`.
Returns false when our stack is longer than the cause stack, otherwise
runs the comparison loop `len(ourStack)` times. -/
def ancestorOfCause (ourStack : Stack) (causeStack : StackTrace) : Bool :=
  if ourStack.length > causeStack.length then
    false
  else
    ancestorLoop ourStack causeStack ourStack.length

/-- Tail-aligned comparison as the spec's §4.4 words it (spec-side
reference definition, for comparison against `ancestorOfCause`): every
element drawn from the tail of the candidate must equal the element at
the same tail-relative position of the cause. -/
def specTailAncestorOf (candidate : Stack) (cause : StackTrace) : Bool :=
  if candidate.length > cause.length then
    false
  else
    (List.range candidate.length).all fun i =>
      candidate.getD (candidate.length - 1 - i) 0
        = (cause.getD (cause.length - 1 - i) ⟨0⟩).val

lemma ancestorLoop_eq_true_iff (our : Stack) (cause : StackTrace) (k : Nat) :
    ancestorLoop our cause k = true ↔
      (k = 0 ∨
        our.getD (our.length - 1) 0
          = (cause.getD (cause.length - 1) ⟨0⟩).val) := by
  induction k with
  | zero => simp [ancestorLoop]
  | succ k ih =>
    simp only [ancestorLoop]
    by_cases h : our.getD (our.length - 1) 0
        = (cause.getD (cause.length - 1) ⟨0⟩).val
    · rw [if_neg (not_not_intro h), ih]
      exact iff_of_true (Or.inr h) (Or.inr h)
    · rw [if_pos h]
      exact iff_of_false (by simp)
        (fun hr => hr.elim (fun hk => Nat.succ_ne_zero k hk) h)

/-- C1: the spec demands a full tail-aligned positional comparison, but
the code's loop compares only the final elements: with
`cause = [1,2,3,4,5]` and `candidate = [9,4,5]` (innermost first), the
tail-relative position holding `9` against `3` mismatches, so the spec
requires `false`, yet `ancestorOfCause` returns `true` because the last
elements (`5` and `5`) agree. -/
theorem c1_ancestor_compares_only_last :
    ancestorOfCause [9, 4, 5] [⟨1⟩, ⟨2⟩, ⟨3⟩, ⟨4⟩, ⟨5⟩] = true ∧
      specTailAncestorOf [9, 4, 5] [⟨1⟩, ⟨2⟩, ⟨3⟩, ⟨4⟩, ⟨5⟩] = false := by
  constructor <;> decide

/-- C2: `ancestorOfCause` returns true exactly when our stack is no
longer than the cause stack and is either empty or agrees with the
cause stack on the final (outermost) element, read as a raw address
value; no other element influences the result. -/
theorem c2_ancestor_last_element_characterization
    (our : Stack) (cause : StackTrace) :
    ancestorOfCause our cause = true ↔
      (our.length ≤ cause.length ∧
        (our = [] ∨
          our.getD (our.length - 1) 0
            = (cause.getD (cause.length - 1) ⟨0⟩).val)) := by
  unfold ancestorOfCause
  by_cases hlen : our.length > cause.length
  · simp [hlen, Nat.not_le.mpr hlen]
  · have hle : our.length ≤ cause.length := Nat.not_lt.mp hlen
    simp only [hlen, if_false, ancestorLoop_eq_true_iff, List.length_eq_zero,
      hle, true_and]

/-- C3: whenever the candidate stack is strictly longer than the cause
stack trace, `ancestorOfCause` returns false, whatever the contents. -/
theorem c3_ancestor_longer_candidate_false
    (our : Stack) (cause : StackTrace)
    (h : our.length > cause.length) :
    ancestorOfCause our cause = false := by
  unfold ancestorOfCause
  simp [h]

theorem c3_ancestor_longer_candidate_false_witness :
    ([1] : Stack).length > ([] : StackTrace).length ∧
      ancestorOfCause [1] [] = false :=
  ⟨by decide, c3_ancestor_longer_candidate_false [1] [] (by decide)⟩

/-- C4: the empty candidate stack matches every cause stack trace: the
length guard passes (`0 ≤ n`) and the comparison loop runs zero times,
so the result is vacuously true. -/
theorem c4_ancestor_empty_candidate_true (cause : StackTrace) :
    ancestorOfCause [] cause = true := by
  simp [ancestorOfCause, ancestorLoop]

lemma strIndex_eq_none_iff (l : List Char) (c : Char) :
    strIndex l c = none ↔ c ∉ l := by
  induction l with
  | nil => simp [strIndex]
  | cons x xs ih =>
    by_cases h : x = c
    · simp [strIndex, h]
    · simp [strIndex, h, ih]
      exact fun _ hcx => h hcx.symm

/-- C5: `funcname` strips everything up to and including the last `/`,
then everything up to and including the first remaining `.`:
`"a/b/pkg.Type.Method"` becomes `"Type.Method"`, `"pkg.Func"` becomes
`"Func"`, and a name with no `.` left after the path strip comes back
unchanged (as the path-stripped string). -/
theorem c5_funcname_normalization :
    funcname "a/b/pkg.Type.Method" = "Type.Method" ∧
      funcname "pkg.Func" = "Func" ∧
      ∀ name : String, '.' ∉ stripPath name.toList →
        funcname name = String.mk (stripPath name.toList) := by
  refine ⟨by decide, by decide, fun name h => ?_⟩
  have hnone : strIndex (stripPath name.data) '.' = none :=
    (strIndex_eq_none_iff _ _).mpr h
  simp [funcname, String.toList, hnone]

theorem c5_funcname_normalization_witness :
    '.' ∉ stripPath (String.toList "a/b/cde") ∧
      funcname "a/b/cde" = String.mk (stripPath (String.toList "a/b/cde")) :=
  ⟨by decide, c5_funcname_normalization.2.2 "a/b/cde" (by decide)⟩

/-- C6: when the symbol table cannot resolve a Frame's pc, the accessors
return the sentinel values `"unknown"`, `0`, `"unknown"`; resolution is
total and signals no failure. -/
theorem c6_unresolved_frame_sentinels (tab : SymTab) (f : Frame)
    (h : tab f.pc = none) :
    Frame.file tab f = "unknown" ∧ Frame.line tab f = 0 ∧
      Frame.name tab f = "unknown" := by
  simp [Frame.file, Frame.line, Frame.name, h]

theorem c6_unresolved_frame_sentinels_witness :
    (fun _ => none : SymTab) (Frame.pc ⟨1⟩) = none ∧
      (Frame.file (fun _ => none) ⟨1⟩ = "unknown" ∧
        Frame.line (fun _ => none) ⟨1⟩ = 0 ∧
        Frame.name (fun _ => none) ⟨1⟩ = "unknown") :=
  ⟨rfl, c6_unresolved_frame_sentinels (fun _ => none) ⟨1⟩ rfl⟩

/-- Go: `Frame.MarshalText` — the rendered bytes together with the
returned `error` value (always `nil`, modelled as `none`). The source
returns just the name when it equals `"unknown"`, and otherwise
`fmt.Sprintf("%s %s:%d", name, file, line)`. -/
def Frame.marshalText (tab : SymTab) (f : Frame) : String × Option String :=
  let name := Frame.name tab f
  if name = "unknown" then
    (name, none)
  else
    (name ++ " " ++ Frame.file tab f ++ ":" ++ Nat.repr (Frame.line tab f),
      none)

/-- A symbol table whose function at pc `0` is literally named
`"unknown"`: resolvable, yet `MarshalText` renders it as unresolved. -/
def tabUnknownName : SymTab := fun p =>
  if p = 0 then some ⟨"unknown", fun _ => ("f.go", 3)⟩ else none

/-- C1 is settled elsewhere; this is C7's counterexample: at a Frame
whose Address resolves (the table yields a function, named `"unknown"`,
at file `f.go` line `3`), `MarshalText` does not render
`"<name> <file>:<line>"` (which would be `"unknown f.go:3"`) but only
`"unknown"`, contradicting the claim as stated. -/
theorem c7_marshal_resolved_counterexample :
    (tabUnknownName (Frame.pc ⟨1⟩)).isSome = true ∧
      (Frame.marshalText tabUnknownName ⟨1⟩).1 ≠
        Frame.name tabUnknownName ⟨1⟩ ++ " " ++
          Frame.file tabUnknownName ⟨1⟩ ++ ":" ++
          Nat.repr (Frame.line tabUnknownName ⟨1⟩) ∧
      (Frame.marshalText tabUnknownName ⟨1⟩).1 = "unknown" :=
  ⟨rfl, by decide, rfl⟩

/-- C7 amended: `MarshalText` never fails (the error is always `nil`),
renders `"<name> <file>:<line>"` when the Address resolves to a function
whose reported name is not the literal `"unknown"`, and renders the
literal `"unknown"` when the Address does not resolve or the resolved
name is itself `"unknown"`. -/
theorem c7_marshal_text_amended (tab : SymTab) (f : Frame) :
    (Frame.marshalText tab f).2 = none ∧
      ((tab f.pc = none ∨ Frame.name tab f = "unknown") →
        (Frame.marshalText tab f).1 = "unknown") ∧
      (∀ fn, tab f.pc = some fn → fn.name ≠ "unknown" →
        (Frame.marshalText tab f).1 =
          fn.name ++ " " ++ (fn.fileLine f.pc).1 ++ ":" ++
            Nat.repr ((fn.fileLine f.pc).2)) := by
  refine ⟨?_, ?_, ?_⟩
  · by_cases h : Frame.name tab f = "unknown" <;>
      simp [Frame.marshalText, h]
  · intro h
    have hname : Frame.name tab f = "unknown" := by
      rcases h with h | h
      · simp [Frame.name, h]
      · exact h
    simp [Frame.marshalText, hname]
  · intro fn hfn hname
    have h1 : Frame.name tab f = fn.name := by simp [Frame.name, hfn]
    have h2 : Frame.file tab f = (fn.fileLine f.pc).1 := by
      simp [Frame.file, hfn]
    have h3 : Frame.line tab f = (fn.fileLine f.pc).2 := by
      simp [Frame.line, hfn]
    simp [Frame.marshalText, h1, h2, h3, hname]

/-- A resolvable function entry used to exercise the non-sentinel
branch of `MarshalText`. -/
def fnPkgF : FuncInfo := ⟨"pkg.f", fun _ => ("a.go", 1)⟩

/-- A symbol table resolving pc `0` to `fnPkgF`. -/
def tabPkgF : SymTab := fun p => if p = 0 then some fnPkgF else none

theorem c7_marshal_text_amended_witness :
    (tabPkgF (Frame.pc ⟨1⟩) = some fnPkgF ∧ fnPkgF.name ≠ "unknown") ∧
      (Frame.marshalText tabPkgF ⟨1⟩).1 = "pkg.f a.go:1" :=
  ⟨⟨rfl, by decide⟩,
    ((c7_marshal_text_amended tabPkgF ⟨1⟩).2.2 fnPkgF rfl
        (by decide)).trans (by decide)⟩

/-- Go `path.Base`: the last element of a slash-separated path — `"."`
for the empty string, trailing slashes stripped first, `"/"` when
nothing remains. -/
def pathBase (p : String) : String :=
  if p.toList.isEmpty then "."
  else
    let l := ((p.toList.reverse.dropWhile (· = '/')).reverse)
    let l := match strLastIndex l '/' with
      | some i => l.drop (i + 1)
      | none => l
    if l.isEmpty then "/" else String.mk l

/-- Formatting verbs accepted by `Frame.Format`: `%s`, `%d`, `%n`, `%v`. -/
inductive Verb
  | s
  | d
  | n
  | v
deriving DecidableEq

/-- Go `Frame.Format`, verb `%s`: with the `+` flag the function name,
`"\n\t"`, and the full file path; without it the file's base name. -/
def Frame.formatS (tab : SymTab) (plus : Bool) (f : Frame) : String :=
  if plus then Frame.name tab f ++ "\n\t" ++ Frame.file tab f
  else pathBase (Frame.file tab f)

/-- Go `Frame.Format`, verb `%d`: the line number via `strconv.Itoa`. -/
def Frame.formatD (tab : SymTab) (f : Frame) : String :=
  Nat.repr (Frame.line tab f)

/-- Go `Frame.Format`: `%s` and `%d` as above, `%n` the normalized
function name, `%v` the `%s` rendering, `":"`, then the `%d` rendering. -/
def Frame.format (tab : SymTab) (plus : Bool) (verb : Verb) (f : Frame) :
    String :=
  match verb with
  | .s => Frame.formatS tab plus f
  | .d => Frame.formatD tab f
  | .n => funcname (Frame.name tab f)
  | .v => Frame.formatS tab plus f ++ ":" ++ Frame.formatD tab f

/-- The element loop of `StackTrace.formatSlice`: a single space is
written before every element except the first. -/
def formatElems (render : Frame → String) : Bool → List Frame → String
  | _, [] => ""
  | first, f :: rest =>
    (if first then "" else " ") ++ render f ++ formatElems render false rest

/-- Go `StackTrace.formatSlice`: `"["`, the frames under the given verb
separated by single spaces, `"]"`. -/
def StackTrace.formatSlice (tab : SymTab) (plus : Bool) (verb : Verb)
    (st : StackTrace) : String :=
  "[" ++ formatElems (Frame.format tab plus verb) true st ++ "]"

/-- The frame loop of `StackTrace.Format` under `%+v`: each frame's
`%+v` rendering preceded by `"\n"`. -/
def verboseLoop (tab : SymTab) : StackTrace → String
  | [] => ""
  | f :: rest => "\n" ++ Frame.format tab true .v f ++ verboseLoop tab rest

/-- Go `StackTrace.Format` for `%v` and `%s` (the `%#v` Go-syntax dump
branch, which no claim concerns, is not modelled): `%+v` runs the
verbose loop, plain `%v` and `%s` delegate to `formatSlice`, other
verbs write nothing. -/
def StackTrace.format (tab : SymTab) (plus : Bool) (verb : Verb)
    (st : StackTrace) : String :=
  match verb with
  | .v =>
    if plus then verboseLoop tab st
    else StackTrace.formatSlice tab plus .v st
  | .s => StackTrace.formatSlice tab plus .s st
  | _ => ""

/-- Space-separated join, as the spec's §4.3 words the Compact
StackTrace layout (spec-side reference definition). -/
def joinSpaced : List String → String
  | [] => ""
  | [x] => x
  | x :: xs => x ++ " " ++ joinSpaced xs

/-- Join of the tail elements of a space-separated list: each element
preceded by one space. -/
def joinSpacedPre : List String → String
  | [] => ""
  | x :: xs => " " ++ x ++ joinSpacedPre xs

lemma joinSpaced_cons (x : String) (xs : List String) :
    joinSpaced (x :: xs) = x ++ joinSpacedPre xs := by
  induction xs generalizing x with
  | nil => simp [joinSpaced, joinSpacedPre]
  | cons y ys ih =>
    show x ++ " " ++ joinSpaced (y :: ys) = _
    rw [ih y]
    show x ++ " " ++ (y ++ joinSpacedPre ys) = x ++ (" " ++ y ++ joinSpacedPre ys)
    simp [String.append_assoc]

lemma formatElems_false_eq (r : Frame → String) (l : List Frame) :
    formatElems r false l = joinSpacedPre (l.map r) := by
  induction l with
  | nil => rfl
  | cons f rest ih => simp [formatElems, joinSpacedPre, ih]

lemma formatElems_true_eq (r : Frame → String) (l : List Frame) :
    formatElems r true l = joinSpaced (l.map r) := by
  cases l with
  | nil => rfl
  | cons f rest =>
    show "" ++ r f ++ formatElems r false rest = _
    rw [formatElems_false_eq, List.map_cons, joinSpaced_cons]
    simp

/-- A symbol table with two resolvable pcs: `0` in `/src/a.go` line 1,
`1` in `/src/b.go` line 2. -/
def tabAB : SymTab := fun p =>
  if p = 0 then some ⟨"pkg.fa", fun _ => ("/src/a.go", 1)⟩
  else if p = 1 then some ⟨"pkg.fb", fun _ => ("/src/b.go", 2)⟩
  else none

/-- C8: Compact rendering of a StackTrace is `"["`, the frames'
`"<basename-of-file>:<line>"` renderings joined by single spaces, then
`"]"`; on a concrete two-frame trace resolving to `a.go:1` and `b.go:2`
it is exactly `"[a.go:1 b.go:2]"`. -/
theorem c8_compact_stacktrace :
    (∀ (tab : SymTab) (st : StackTrace),
        StackTrace.format tab false .v st =
          "[" ++ joinSpaced (st.map fun f =>
            pathBase (Frame.file tab f) ++ ":" ++
              Nat.repr (Frame.line tab f)) ++ "]") ∧
      StackTrace.format tabAB false .v [⟨1⟩, ⟨2⟩] = "[a.go:1 b.go:2]" := by
  constructor
  · intro tab st
    show "[" ++ formatElems (Frame.format tab false .v) true st ++ "]" = _
    rw [formatElems_true_eq]
    rfl
  · decide

/-- A symbol table resolving pc `0` to a package-qualified function
name, exercising name normalization. -/
def tabQualified : SymTab := fun p =>
  if p = 0 then some ⟨"pkg.Func", fun _ => ("/x/f.go", 7)⟩ else none

/-- C9's counterexample: Verbose rendering uses the raw reported
function name, not the normalized one. On a one-frame trace whose pc
resolves to name `"pkg.Func"` at `/x/f.go:7`, the code renders
`"\npkg.Func\n\t/x/f.go:7"`, while the claim's
`"\n<normalized name>\n\t<file>:<line>"` would be
`"\nFunc\n\t/x/f.go:7"`. -/
theorem c9_verbose_counterexample :
    StackTrace.format tabQualified true .v [⟨1⟩] = "\npkg.Func\n\t/x/f.go:7" ∧
      funcname "pkg.Func" = "Func" ∧
      StackTrace.format tabQualified true .v [⟨1⟩] ≠
        "\n" ++ funcname "pkg.Func" ++ "\n\t/x/f.go:7" := by
  refine ⟨by decide, by decide, by decide⟩

/-- Concatenation of a list of strings in order, as the spec's
"`n` repetitions" wording for the Verbose StackTrace layout (spec-side
reference definition). -/
def concatAll : List String → String
  | [] => ""
  | x :: xs => x ++ concatAll xs

lemma verboseLoop_eq_concatAll (tab : SymTab) (st : StackTrace) :
    verboseLoop tab st =
      concatAll (st.map fun f =>
        "\n" ++ (Frame.name tab f ++ "\n\t" ++ Frame.file tab f ++ ":" ++
          Nat.repr (Frame.line tab f))) := by
  induction st with
  | nil => rfl
  | cons f rest ih =>
    show "\n" ++ Frame.format tab true .v f ++ verboseLoop tab rest = _
    rw [ih]
    rfl

/-- C9 amended: Verbose StackTrace rendering is the concatenation, one
frame after another, of `"\n"` followed by that frame's Verbose
rendering `"<function name as reported, not normalized>\n\t<full file
path>:<line>"`; an unresolved Frame renders Verbose as exactly
`"unknown\n\tunknown:0"`. -/
theorem c9_verbose_amended :
    (∀ (tab : SymTab) (st : StackTrace),
        StackTrace.format tab true .v st =
          concatAll (st.map fun f =>
            "\n" ++ (Frame.name tab f ++ "\n\t" ++ Frame.file tab f ++ ":" ++
              Nat.repr (Frame.line tab f)))) ∧
      (∀ (tab : SymTab) (f : Frame), tab f.pc = none →
        Frame.format tab true .v f = "unknown\n\tunknown:0") := by
  constructor
  · intro tab st
    show verboseLoop tab st = _
    exact verboseLoop_eq_concatAll tab st
  · intro tab f h
    show Frame.formatS tab true f ++ ":" ++ Frame.formatD tab f = _
    simp only [Frame.formatS, Frame.formatD, Frame.name, Frame.file,
      Frame.line, h, if_true]
    rfl

theorem c9_verbose_amended_witness :
    (fun _ => none : SymTab) (Frame.pc ⟨1⟩) = none ∧
      Frame.format (fun _ => none) true .v ⟨1⟩ = "unknown\n\tunknown:0" :=
  ⟨rfl, c9_verbose_amended.2 (fun _ => none) ⟨1⟩ rfl⟩

/-- Modelled host primitive `runtime.Callers(skip, pcs)` for a calling
goroutine whose active call chain is `chain` (innermost first) and a
buffer of size `depth`: the buffer receives the chain with `skip`
frames skipped, cut to the buffer size, and `pcs[0:n]` is returned. -/
def runtimeCallers (chain : List Nat) (skip : Nat) (depth : Nat) :
    List Nat :=
  (chain.drop skip).take depth

/-- Go `callers(skip)`: `depth = 32`, `n := runtime.Callers(skip+3,
pcs[:])`, result `pcs[0:n]`. -/
def callers (chain : List Nat) (skip : Nat) : Stack :=
  runtimeCallers chain (skip + 3) 32

/-- C10: `callers` returns at most 32 addresses, skips a baseline of 3
frames on top of the extra skip (the result is an initial segment of
the chain with `extraSkip + 3` frames dropped), and when the remaining
chain is 32 or deeper it silently keeps exactly the innermost 32. -/
theorem c10_callers_bounded (chain : List Nat) (extraSkip : Nat) :
    (callers chain extraSkip).length ≤ 32 ∧
      callers chain extraSkip <+: chain.drop (extraSkip + 3) ∧
      (32 ≤ (chain.drop (extraSkip + 3)).length →
        (callers chain extraSkip).length = 32) := by
  refine ⟨?_, ?_, fun h => ?_⟩
  · exact List.length_take_le 32 (chain.drop (extraSkip + 3))
  · exact List.take_prefix 32 (chain.drop (extraSkip + 3))
  · rw [callers, runtimeCallers, List.length_take]
    exact Nat.min_eq_left h

theorem c10_callers_bounded_witness :
    32 ≤ ((List.range 40).drop (0 + 3)).length ∧
      (callers (List.range 40) 0).length = 32 :=
  ⟨by decide, (c10_callers_bounded (List.range 40) 0).2.2 (by decide)⟩

end GoErrors
